import Mathlib

/-!
# Verification of `GPSExtractor/extractGPS.js`

A shallow embedding of the GoPro GPS-extraction driver script
(`src/GPSExtractor/extractGPS.js`) and proofs about it.

The script has two parts:

* `bufferAppender(path)` — returns a callback that streams a file to the
  external `mp4box` consumer in blocks (`fs.createReadStream` with
  `highWaterMark: 4 * 1024 * 1024`), calling `mp4boxFile.appendBuffer` with
  `arrayBuffer.fileStart = bytesRead` for each chunk and `mp4boxFile.flush()`
  on the stream's `end` event.
* a batch driver — checks `process.argv`, builds one `gpmfExtract` promise per
  input file, and on `Promise.all(...).then` passes the extracted payloads to
  `goproTelemetry(extracted, { preset: "geojson" })`, finally writing
  `JSON.stringify(telemetry, null, 2)` to the output file with
  `fs.writeFileSync`.

File contents are modelled as `List Nat` (byte lists); Node's readable-stream
delivery is modelled explicitly (the chunks the OS read delivers, then either
an end-of-file or a mid-stream I/O error); promises are modelled as settled
outcomes with an explicit settle time, so the temporal claims about
`Promise.all` are statable.
-/

/-! ## The bounded buffer loader (`bufferAppender`) -/

/-- The value of the `highWaterMark` option passed to `fs.createReadStream`
in `bufferAppender`: `4 * 1024 * 1024` (4 MiB). -/
def highWaterMark : Nat := 4 * 1024 * 1024

/-- How Node's `fs.ReadStream` chunks a file of bytes `data` under a given
`highWaterMark` `hwm`: each `data` event carries exactly `hwm` bytes, except
the final chunk which carries whatever remains. -/
def readStreamChunks (hwm : Nat) (data : List Nat) : List (List Nat) :=
  if h : hwm = 0 ∨ data = [] then []
  else data.take hwm :: readStreamChunks hwm (data.drop hwm)
termination_by data.length
decreasing_by
  push_neg at h
  simp only [List.length_drop]
  exact Nat.sub_lt (List.length_pos.mpr h.2) (Nat.pos_of_ne_zero h.1)

theorem readStreamChunks_nil (hwm : Nat) : readStreamChunks hwm [] = [] := by
  unfold readStreamChunks; simp

theorem readStreamChunks_cons (hwm : Nat) (data : List Nat)
    (h1 : hwm ≠ 0) (h2 : data ≠ []) :
    readStreamChunks hwm data =
      data.take hwm :: readStreamChunks hwm (data.drop hwm) := by
  rw [readStreamChunks]
  simp [h1, h2]

/-- Concatenating the stream's chunks gives back the file. -/
theorem readStreamChunks_flatten (hwm : Nat) (h : hwm ≠ 0) (data : List Nat) :
    (readStreamChunks hwm data).flatten = data := by
  generalize hn : data.length = n
  induction n using Nat.strong_induction_on generalizing data with
  | _ n ih =>
    by_cases hd : data = []
    · subst hd; simp [readStreamChunks_nil]
    · rw [readStreamChunks_cons hwm data h hd]
      simp only [List.flatten_cons]
      rw [ih (data.drop hwm).length ?_ (data.drop hwm) rfl]
      · exact List.take_append_drop hwm data
      · subst hn
        simp only [List.length_drop]
        exact Nat.sub_lt (List.length_pos.mpr hd) (Nat.pos_of_ne_zero h)

/-- Every chunk the stream delivers is nonempty. -/
theorem readStreamChunks_ne_nil (hwm : Nat) (h : hwm ≠ 0) (data : List Nat) :
    ∀ c ∈ readStreamChunks hwm data, c ≠ [] := by
  generalize hn : data.length = n
  induction n using Nat.strong_induction_on generalizing data with
  | _ n ih =>
    by_cases hd : data = []
    · subst hd; simp [readStreamChunks_nil]
    · rw [readStreamChunks_cons hwm data h hd]
      intro c hc
      rcases List.mem_cons.mp hc with hc | hc
      · subst hc
        simp only [ne_eq, List.take_eq_nil_iff, not_or]
        exact ⟨h, hd⟩
      · exact ih (data.drop hwm).length
          (by subst hn
              simp only [List.length_drop]
              exact Nat.sub_lt (List.length_pos.mpr hd) (Nat.pos_of_ne_zero h))
          (data.drop hwm) rfl c hc

/-- Every chunk but the last carries exactly `hwm` bytes. -/
theorem readStreamChunks_dropLast_length (hwm : Nat) (data : List Nat) :
    ∀ c ∈ (readStreamChunks hwm data).dropLast, c.length = hwm := by
  generalize hn : data.length = n
  induction n using Nat.strong_induction_on generalizing data with
  | _ n ih =>
    by_cases h0 : hwm = 0
    · intro c hc
      rw [readStreamChunks] at hc
      simp [h0] at hc
    by_cases hd : data = []
    · subst hd; simp [readStreamChunks_nil]
    · rw [readStreamChunks_cons hwm data h0 hd]
      by_cases hrest : readStreamChunks hwm (data.drop hwm) = []
      · simp [hrest]
      · rw [List.dropLast_cons_of_ne_nil hrest]
        intro c hc
        rcases List.mem_cons.mp hc with hc | hc
        · subst hc
          have hdrop : data.drop hwm ≠ [] := by
            intro hh
            rw [hh, readStreamChunks_nil] at hrest
            exact hrest rfl
          have hlen : hwm < data.length := by
            by_contra hle
            push_neg at hle
            exact hdrop (List.drop_eq_nil_of_le hle)
          simp [List.length_take, Nat.min_eq_left (Nat.le_of_lt hlen)]
        · exact ih (data.drop hwm).length
            (by subst hn
                simp only [List.length_drop]
                exact Nat.sub_lt (List.length_pos.mpr hd) (Nat.pos_of_ne_zero h0))
            (data.drop hwm) rfl c hc

/-- An interaction with the external `mp4boxFile` consumer: either
`mp4boxFile.appendBuffer(arrayBuffer)` with `arrayBuffer.fileStart` set, or
`mp4boxFile.flush()`. -/
inductive Mp4Event where
  | appendBuffer (fileStart : Nat) (bytes : List Nat) : Mp4Event
  | flush : Mp4Event
deriving DecidableEq

/-- How the underlying read terminates: end-of-file (the `end` event) or a
mid-stream I/O failure (the `error` event). -/
inductive StreamEnd where
  | eof : StreamEnd
  | ioError : StreamEnd
deriving DecidableEq

/-- What the underlying file stream delivers: the chunks successfully read,
in order, followed by a terminal event. -/
structure ReadOutcome where
  chunks : List (List Nat)
  final : StreamEnd
deriving DecidableEq

/-- One run of the callback returned by `bufferAppender`: the sequence of
calls made on `mp4boxFile`, and whether an error escaped (the script
registers no `error` listener on the stream, so a stream error surfaces as an
uncaught exception). -/
structure LoaderRun where
  events : List Mp4Event
  raised : Bool
deriving DecidableEq

/-- The `data`-event handler of `bufferAppender`: starting from the current
`bytesRead` accumulator, each chunk is appended with
`arrayBuffer.fileStart = bytesRead`, after which
`bytesRead += chunk.length`. -/
def appendEvents : Nat → List (List Nat) → List Mp4Event
  | _, [] => []
  | bytesRead, c :: cs =>
      .appendBuffer bytesRead c :: appendEvents (bytesRead + c.length) cs

/-- Shallow embedding of `bufferAppender` (lines 14–29 of `extractGPS.js`)
applied to a given stream outcome: every delivered chunk is appended via the
`data` handler; `mp4boxFile.flush()` runs only on the `end` event, which Node
fires after all `data` events when the file is exhausted and never fires
after an `error`; an `error` has no listener and therefore escapes
(`raised`), and no further `data` or `end` events follow it. -/
def bufferAppender (outcome : ReadOutcome) : LoaderRun :=
  match outcome.final with
  | .eof => { events := appendEvents 0 outcome.chunks ++ [.flush], raised := false }
  | .ioError => { events := appendEvents 0 outcome.chunks, raised := true }

/-- The stream outcome for a successful end-to-end read of the file `data`. -/
def readFileOutcome (hwm : Nat) (data : List Nat) : ReadOutcome :=
  { chunks := readStreamChunks hwm data, final := .eof }

/-- The stream outcome when the read of file `data` fails after the first
`k` chunks were delivered. -/
def midStreamFailure (hwm : Nat) (data : List Nat) (k : Nat) : ReadOutcome :=
  { chunks := (readStreamChunks hwm data).take k, final := .ioError }

/-- The blocks handed to `mp4boxFile.appendBuffer`, in call order. -/
def appendedBlocks (evs : List Mp4Event) : List (List Nat) :=
  evs.filterMap fun e =>
    match e with
    | .appendBuffer _ b => some b
    | .flush => none

/-- The `fileStart` offsets handed to `mp4boxFile.appendBuffer`, in call
order. -/
def reportedOffsets (evs : List Mp4Event) : List Nat :=
  evs.filterMap fun e =>
    match e with
    | .appendBuffer o _ => some o
    | .flush => none

/-- How many times `mp4boxFile.flush()` was called. -/
def flushCount (evs : List Mp4Event) : Nat :=
  (evs.filter fun e =>
    match e with
    | .flush => true
    | .appendBuffer _ _ => false).length

/-- The list whose `i`-th entry is the sum of the first `i` entries of `l`
(the offset of block `i` when the blocks have lengths `l`). -/
def prefixSums (l : List Nat) : List Nat :=
  (List.range l.length).map fun i => ((l.take i)).sum

theorem appendedBlocks_appendEvents (k : Nat) (cs : List (List Nat)) :
    appendedBlocks (appendEvents k cs) = cs := by
  induction cs generalizing k with
  | nil => rfl
  | cons c cs ih => simp [appendEvents, appendedBlocks, List.filterMap] at ih ⊢; exact ih _

theorem flushCount_appendEvents (k : Nat) (cs : List (List Nat)) :
    flushCount (appendEvents k cs) = 0 := by
  induction cs generalizing k with
  | nil => rfl
  | cons c cs ih => simp [appendEvents, flushCount, List.filter] at ih ⊢; exact ih _

theorem reportedOffsets_appendEvents (k : Nat) (cs : List (List Nat)) :
    reportedOffsets (appendEvents k cs) =
      (List.range cs.length).map fun i => k + ((cs.map List.length).take i).sum := by
  induction cs generalizing k with
  | nil => rfl
  | cons c cs ih =>
    have hstep : reportedOffsets (appendEvents k (c :: cs)) =
        k :: reportedOffsets (appendEvents (k + c.length) cs) := by
      simp [appendEvents, reportedOffsets, List.filterMap]
    rw [hstep, ih]
    simp only [List.length_cons, List.range_succ_eq_map, List.map_cons, List.map_map]
    congr 1
    refine List.map_congr_left ?_
    intro i _
    simp only [Function.comp_apply, List.take_succ_cons, List.sum_cons]
    omega

theorem reportedOffsets_head? (k : Nat) (c : List Nat) (cs : List (List Nat)) :
    (reportedOffsets (appendEvents k (c :: cs))).head? = some k := by
  simp [appendEvents, reportedOffsets, List.filterMap]

theorem reportedOffsets_chain' (k : Nat) (cs : List (List Nat))
    (h : ∀ c ∈ cs, c ≠ []) :
    List.Chain' (· < ·) (reportedOffsets (appendEvents k cs)) := by
  induction cs generalizing k with
  | nil => simp [appendEvents, reportedOffsets]
  | cons c cs ih =>
    have hstep : reportedOffsets (appendEvents k (c :: cs)) =
        k :: reportedOffsets (appendEvents (k + c.length) cs) := by
      simp [appendEvents, reportedOffsets, List.filterMap]
    rw [hstep, List.chain'_cons']
    refine ⟨?_, ih _ fun d hd => h d (List.mem_cons_of_mem c hd)⟩
    have hcpos : 0 < c.length := List.length_pos.mpr (h c (List.mem_cons_self c cs))
    intro b hb
    cases cs with
    | nil => simp [appendEvents, reportedOffsets] at hb
    | cons c' cs' =>
      rw [reportedOffsets_head? (k + c.length) c' cs'] at hb
      cases hb
      omega

theorem appendedBlocks_concat_flush (xs : List Mp4Event) :
    appendedBlocks (xs ++ [Mp4Event.flush]) = appendedBlocks xs := by
  simp [appendedBlocks, List.filterMap_append]

theorem reportedOffsets_concat_flush (xs : List Mp4Event) :
    reportedOffsets (xs ++ [Mp4Event.flush]) = reportedOffsets xs := by
  simp [reportedOffsets, List.filterMap_append]

theorem flushCount_concat_flush (xs : List Mp4Event) :
    flushCount (xs ++ [Mp4Event.flush]) = flushCount xs + 1 := by
  simp [flushCount, List.filter_append]

theorem highWaterMark_ne_zero : highWaterMark ≠ 0 := by
  simp [highWaterMark]

/-- **C2.** For every file, the blocks `bufferAppender` hands to
`mp4boxFile.appendBuffer`, concatenated in callback order, reconstruct the
original file byte-for-byte, and the end-of-stream `mp4boxFile.flush()`
signal fires exactly once, after the last block callback (it is the final
consumer event). -/
theorem bufferAppender_reconstructs_file (data : List Nat) :
    (appendedBlocks (bufferAppender (readFileOutcome highWaterMark data)).events).flatten = data
    ∧ flushCount (bufferAppender (readFileOutcome highWaterMark data)).events = 1
    ∧ (bufferAppender (readFileOutcome highWaterMark data)).events.getLast? =
        some Mp4Event.flush := by
  have hev : (bufferAppender (readFileOutcome highWaterMark data)).events =
      appendEvents 0 (readStreamChunks highWaterMark data) ++ [Mp4Event.flush] := rfl
  refine ⟨?_, ?_, ?_⟩
  · rw [hev, appendedBlocks_concat_flush, appendedBlocks_appendEvents]
    exact readStreamChunks_flatten highWaterMark highWaterMark_ne_zero data
  · rw [hev, flushCount_concat_flush, flushCount_appendEvents]
  · rw [hev]
    exact List.getLast?_concat _

/-- **C4.** For every file whose underlying read fails after `k` delivered
chunks, the error escapes `bufferAppender` uncaught (the loader raises), the
only consumer calls are the block appends for the chunks delivered before the
failure — no further block callbacks occur — and `mp4boxFile.flush()` is
never called (no end-of-stream signal is sent). -/
theorem bufferAppender_midStreamFailure (data : List Nat) (k : Nat) :
    (bufferAppender (midStreamFailure highWaterMark data k)).raised = true
    ∧ flushCount (bufferAppender (midStreamFailure highWaterMark data k)).events = 0
    ∧ appendedBlocks (bufferAppender (midStreamFailure highWaterMark data k)).events =
        (readStreamChunks highWaterMark data).take k := by
  refine ⟨rfl, ?_, ?_⟩
  · exact flushCount_appendEvents 0 _
  · exact appendedBlocks_appendEvents 0 _

/-- **C7.** `bufferAppender` reads the source file in blocks of
`highWaterMark = 4 * 1024 * 1024` bytes (4 MiB): every appended block except
possibly the last has size exactly `4 * 1024 * 1024`. -/
theorem bufferAppender_blockSize (data : List Nat) :
    highWaterMark = 4 * 1024 * 1024
    ∧ ((appendedBlocks
          (bufferAppender (readFileOutcome highWaterMark data)).events).dropLast.all
        fun c => c.length == 4 * 1024 * 1024) = true := by
  refine ⟨rfl, ?_⟩
  have hev : (bufferAppender (readFileOutcome highWaterMark data)).events =
      appendEvents 0 (readStreamChunks highWaterMark data) ++ [Mp4Event.flush] := rfl
  rw [hev, appendedBlocks_concat_flush, appendedBlocks_appendEvents]
  rw [List.all_eq_true]
  intro c hc
  have := readStreamChunks_dropLast_length highWaterMark data c hc
  simpa [highWaterMark] using this

/-- **C8.** For every file, the `fileStart` offsets reported with successive
block callbacks are exactly the prefix sums of the emitted block lengths
(each block's offset is the total size of all previously emitted blocks,
starting at 0), they are strictly increasing (no gaps or overlaps), and the
flush signal is the final consumer event, following the last block
callback. -/
theorem bufferAppender_offsets (data : List Nat) :
    reportedOffsets (bufferAppender (readFileOutcome highWaterMark data)).events =
      prefixSums ((appendedBlocks
        (bufferAppender (readFileOutcome highWaterMark data)).events).map List.length)
    ∧ List.Chain' (· < ·)
        (reportedOffsets (bufferAppender (readFileOutcome highWaterMark data)).events)
    ∧ (bufferAppender (readFileOutcome highWaterMark data)).events.getLast? =
        some Mp4Event.flush := by
  have hev : (bufferAppender (readFileOutcome highWaterMark data)).events =
      appendEvents 0 (readStreamChunks highWaterMark data) ++ [Mp4Event.flush] := rfl
  refine ⟨?_, ?_, ?_⟩
  · rw [hev, reportedOffsets_concat_flush, appendedBlocks_concat_flush,
      appendedBlocks_appendEvents, reportedOffsets_appendEvents]
    simp [prefixSums]
  · rw [hev, reportedOffsets_concat_flush]
    exact reportedOffsets_chain' 0 _
      (readStreamChunks_ne_nil highWaterMark highWaterMark_ne_zero data)
  · rw [hev]
    exact List.getLast?_concat _

/-! ## JSON serialization (`JSON.stringify(telemetry, null, 2)`) -/

mutual
/-- A JSON value, as produced by the external `gopro-telemetry` interpreter
and consumed by `JSON.stringify`. Numbers are modelled as integers, which is
enough for the structural serialization properties proved here. -/
inductive Json where
  | null : Json
  | bool (b : Bool) : Json
  | num (n : Int) : Json
  | str (s : String) : Json
  | arr (elems : JsonList) : Json
  | obj (fields : JsonFields) : Json

/-- The elements of a JSON array. -/
inductive JsonList where
  | nil : JsonList
  | cons (hd : Json) (tl : JsonList) : JsonList

/-- The key/value members of a JSON object. -/
inductive JsonFields where
  | nil : JsonFields
  | cons (key : String) (val : Json) (tl : JsonFields) : JsonFields
end

/-- JSON string escaping, as performed by `JSON.stringify` on the common
escape characters. -/
def jsonEscapeChar (c : Char) : String :=
  if c = '"' then "\\\""
  else if c = '\\' then "\\\\"
  else if c = '\n' then "\\n"
  else if c = '\r' then "\\r"
  else if c = '\t' then "\\t"
  else String.singleton c

/-- A JSON string literal: the escaped characters wrapped in quotes. -/
def jsonQuote (s : String) : String :=
  "\"" ++ String.join (s.data.map jsonEscapeChar) ++ "\""

/-- The whitespace prefix at nesting depth `depth` when serializing with a
gap of `indent` spaces per level. -/
def indentGap (indent depth : Nat) : String :=
  String.mk (List.replicate (indent * depth) ' ')

mutual
/-- `JSON.stringify(v, null, indent)` for `indent > 0`, at nesting depth
`depth`: atoms print inline; nonempty arrays and objects open their bracket,
put every member on its own line indented one level deeper, and close the
bracket on a fresh line at the current depth. -/
def stringifyVal (indent depth : Nat) : Json → String
  | .null => "null"
  | .bool true => "true"
  | .bool false => "false"
  | .num n => toString n
  | .str s => jsonQuote s
  | .arr .nil => "[]"
  | .arr es => "[\n" ++ stringifyItems indent (depth + 1) es ++ "\n"
      ++ indentGap indent depth ++ "]"
  | .obj .nil => "\x7b\x7d"
  | .obj fs => "\x7b\n" ++ stringifyFields indent (depth + 1) fs ++ "\n"
      ++ indentGap indent depth ++ "\x7d"

/-- The comma-and-newline separated, indented lines of an array's elements. -/
def stringifyItems (indent depth : Nat) : JsonList → String
  | .nil => ""
  | .cons e .nil => indentGap indent depth ++ stringifyVal indent depth e
  | .cons e tl => indentGap indent depth ++ stringifyVal indent depth e
      ++ ",\n" ++ stringifyItems indent depth tl

/-- The comma-and-newline separated, indented lines of an object's members
(`"key": value`). -/
def stringifyFields (indent depth : Nat) : JsonFields → String
  | .nil => ""
  | .cons k v .nil => indentGap indent depth ++ jsonQuote k ++ ": "
      ++ stringifyVal indent depth v
  | .cons k v tl => indentGap indent depth ++ jsonQuote k ++ ": "
      ++ stringifyVal indent depth v ++ ",\n" ++ stringifyFields indent depth tl
end

/-- `JSON.stringify(j, null, indent)` — serialization of a whole value at
depth 0. -/
def jsonStringify (j : Json) (indent : Nat) : String :=
  stringifyVal indent 0 j

/-- The pretty-printed form of a nonempty object is multi-line: it begins
with the opening brace followed immediately by a newline. -/
theorem jsonStringify_obj_multiline (k : String) (v : Json) (fs : JsonFields) :
    ∃ s, jsonStringify (Json.obj (JsonFields.cons k v fs)) 2 = "\x7b\n" ++ s := by
  refine ⟨stringifyFields 2 1 (JsonFields.cons k v fs) ++ "\n"
      ++ indentGap 2 0 ++ "\x7d", ?_⟩
  simp [jsonStringify, stringifyVal, String.append_assoc]

/-! ## Promises and the batch driver (lines 31–58 of `extractGPS.js`) -/

/-- An error message carried by a rejected promise. -/
abbrev ErrorMsg := String

/-- An opaque per-file telemetry payload, as resolved by `gpmfExtract`. The
driver never inspects it, so its structure is irrelevant; it is modelled as a
natural number tag. -/
abbrev Payload := Nat

/-- A settled JavaScript promise for a value of type `α`, abstracted as the
time at which it settles together with its outcome (fulfilled with a value,
or rejected with an error message). -/
structure Promise (α : Type) where
  time : Nat
  result : Except ErrorMsg α

/-- The earliest rejection among a list of settled promises, if any: the
settle time and error of the first promise — in time order — to reject.
`Promise.all` rejects with exactly this rejection. -/
def earliestRejection {α : Type} : List (Promise α) → Option (Nat × ErrorMsg)
  | [] => none
  | p :: ps =>
    match p.result, earliestRejection ps with
    | .ok _, r => r
    | .error e, none => some (p.time, e)
    | .error e, some (t, e0) =>
        if t ≤ p.time then some (t, e0) else some (p.time, e)

/-- The time at which the last of the given promises settles. -/
def maxSettleTime {α : Type} : List (Promise α) → Nat
  | [] => 0
  | p :: ps => max p.time (maxSettleTime ps)

/-- The fulfilled values of the given promises, in list order. -/
def okValues {α : Type} (ps : List (Promise α)) : List α :=
  ps.filterMap fun p => p.result.toOption

/-- `Promise.all(ps)`: fulfills with the list of all values — in the order
of `ps`, not completion order — once the last promise fulfills; rejects with
the first rejection in time as soon as that rejection occurs. -/
def promiseAll {α : Type} (ps : List (Promise α)) : Promise (List α) :=
  match earliestRejection ps with
  | some (t, e) => { time := t, result := .error e }
  | none => { time := maxSettleTime ps, result := .ok (okValues ps) }

/-- One call into the external `gopro-telemetry` interpreter:
`goproTelemetry(extracted, { preset: "geojson" })`. -/
structure InterpCall where
  payloads : List Payload
  preset : String
deriving DecidableEq

/-- The observable effects of one run of the driver's output-generation
block (lines 42–58): the calls made into `goproTelemetry` and the files
written by `fs.writeFileSync`, each write tagged with the time at which it
happens. -/
structure BatchTrace where
  interpCalls : List InterpCall
  writes : List (Nat × String × String)
deriving DecidableEq

/-- Shallow embedding of the driver's output generation (lines 42–58 of
`extractGPS.js`), given the external collaborators' behavior: `interp` is
`goproTelemetry` restricted to the `"geojson"` preset, and `ps` are the
settled `gpmfExtract` promises, one per input file.

`Promise.all(promises).then(...)` runs its callback only when every promise
fulfills; the callback calls `goproTelemetry(extracted, { preset: "geojson" })`
and, when that fulfills, writes `JSON.stringify(telemetry, null, 2)` to
`geojsonOutFile`. Neither promise chain has a rejection handler and the
surrounding `try/catch` only sees synchronous throws, so on any rejection
nothing further happens: no interpreter call (respectively no write) and no
`Failed` record of any kind. -/
def batchRun (interp : List Payload → Except ErrorMsg Json)
    (geojsonOutFile : String) (ps : List (Promise Payload)) : BatchTrace :=
  match (promiseAll ps).result with
  | .error _ => { interpCalls := [], writes := [] }
  | .ok extracted =>
    match interp extracted with
    | .error _ => { interpCalls := [{ payloads := extracted, preset := "geojson" }],
                    writes := [] }
    | .ok telemetry =>
        { interpCalls := [{ payloads := extracted, preset := "geojson" }],
          writes := [((promiseAll ps).time, geojsonOutFile,
                      jsonStringify telemetry 2)] }

/-- The usage line printed on invalid invocation (line 33):
`basename(__filename)` is `extractGPS.js`. -/
def usageMessage : String :=
  "Usage: extractGPS.js <geojson_out_file> <video_file_name> <video_file_name>..."

/-- The observable result of a whole run of the script: either an early
`process.exit` with a code and a printed message, or a run of the
output-generation block. -/
inductive ProgramResult where
  | exited (code : Nat) (message : String) : ProgramResult
  | ran (trace : BatchTrace) : ProgramResult
deriving DecidableEq

/-- Shallow embedding of the whole script (lines 31–58): `argv` is
`process.argv` (so `argv[0]` is the node binary and `argv[1]` the script
path); if `process.argv.length < 4` the script prints the usage message and
exits with code 1 before any extraction work; otherwise
`geojsonOutFile = argv[2]`, `files = argv.slice(3)`, and the loop
`for (const file of files) promises.push(gpmfExtract(bufferAppender(file)))`
creates exactly one promise per file, in order — modelled by mapping the
environment-supplied `extract` over `files`. -/
def extractGPS (interp : List Payload → Except ErrorMsg Json)
    (extract : String → Promise Payload) (argv : List String) : ProgramResult :=
  if argv.length < 4 then .exited 1 usageMessage
  else .ran (batchRun interp (argv.getD 2 "") ((argv.drop 3).map extract))

theorem earliestRejection_eq_none {α : Type} (ps : List (Promise α))
    (hok : ∀ p ∈ ps, ∃ a, p.result = Except.ok a) :
    earliestRejection ps = none := by
  induction ps with
  | nil => rfl
  | cons p ps ih =>
    obtain ⟨a, ha⟩ := hok p (List.mem_cons_self p ps)
    have hrest := ih fun q hq => hok q (List.mem_cons_of_mem p hq)
    simp [earliestRejection, ha, hrest]

theorem earliestRejection_isSome {α : Type} (ps : List (Promise α))
    (herr : ∃ p ∈ ps, ∃ e, p.result = Except.error e) :
    ∃ te, earliestRejection ps = some te := by
  induction ps with
  | nil => simp at herr
  | cons p ps ih =>
    obtain ⟨q, hq, e, he⟩ := herr
    rcases List.mem_cons.mp hq with hq | hq
    · subst hq
      cases hr : earliestRejection ps with
      | none => exact ⟨(q.time, e), by simp [earliestRejection, he, hr]⟩
      | some te =>
        cases te with
        | mk t e0 =>
          by_cases hle : t ≤ q.time
          · exact ⟨(t, e0), by simp [earliestRejection, he, hr, hle]⟩
          · exact ⟨(q.time, e), by simp [earliestRejection, he, hr, hle]⟩
    · obtain ⟨⟨t, e0⟩, hsome⟩ := ih ⟨q, hq, e, he⟩
      cases hp : p.result with
      | ok a => exact ⟨(t, e0), by simp [earliestRejection, hp, hsome]⟩
      | error e1 =>
        by_cases hle : t ≤ p.time
        · exact ⟨(t, e0), by simp [earliestRejection, hp, hsome, hle]⟩
        · exact ⟨(p.time, e1), by simp [earliestRejection, hp, hsome, hle]⟩

theorem maxSettleTime_le {α : Type} (ps : List (Promise α)) :
    ∀ p ∈ ps, p.time ≤ maxSettleTime ps := by
  induction ps with
  | nil => simp
  | cons p ps ih =>
    intro q hq
    rcases List.mem_cons.mp hq with hq | hq
    · subst hq; exact Nat.le_max_left _ _
    · exact Nat.le_trans (ih q hq) (Nat.le_max_right _ _)

theorem promiseAll_of_ok {α : Type} (ps : List (Promise α))
    (hok : ∀ p ∈ ps, ∃ a, p.result = Except.ok a) :
    promiseAll ps = { time := maxSettleTime ps, result := .ok (okValues ps) } := by
  simp [promiseAll, earliestRejection_eq_none ps hok]

theorem promiseAll_error_of_rejection {α : Type} (ps : List (Promise α))
    (herr : ∃ p ∈ ps, ∃ e, p.result = Except.error e) :
    ∃ t e, promiseAll ps = { time := t, result := .error e } := by
  obtain ⟨⟨t, e⟩, hsome⟩ := earliestRejection_isSome ps herr
  exact ⟨t, e, by simp [promiseAll, hsome]⟩

theorem okValues_map (files : List String) (extract : String → Promise Payload)
    (val : String → Payload)
    (hok : ∀ f ∈ files, (extract f).result = Except.ok (val f)) :
    okValues (files.map extract) = files.map val := by
  induction files with
  | nil => rfl
  | cons f fs ih =>
    have hf := hok f (List.mem_cons_self f fs)
    have hrest := ih fun g hg => hok g (List.mem_cons_of_mem f hg)
    simp [okValues, List.filterMap_cons, hf, Except.toOption] at hrest ⊢
    exact hrest

/-- Modelled from the spec: the collaborator that invokes the extractor —
the Python driver `extractGPS.py`, referenced by the README but not present
under `src/` — walks the video directory, groups chunked videos into logical
recordings, and invokes the node script once per logical recording, supplying
an output path derived deterministically from the recording's identifier
("one artifact per logical recording", "named deterministically from the
recording identifier"). -/
def outPathFor (recordingId : String) : String := recordingId ++ ".geojson"

/-- A trivial stand-in for the external `gopro-telemetry` interpreter, used
only to instantiate concrete witness runs. -/
def interpW : List Payload → Except ErrorMsg Json := fun _ => .ok Json.null

/-- A stand-in `gpmfExtract` that fulfils promptly with payload `0`, used
only to instantiate concrete witness runs. -/
def extractW : String → Promise Payload := fun _ => { time := 0, result := .ok 0 }

/-- `process.argv` of a concrete valid invocation, used only to instantiate
concrete witness runs. -/
def argvW : List String := ["node", "extractGPS.js", "out.geojson", "a.mp4", "b.mp4"]

/-- **C6.** For every invocation with fewer arguments than one output path
plus at least one input video file (`process.argv.length < 4`), the script
prints the usage message and exits with code 1; the result carries no batch
trace, so no extraction work is performed. -/
theorem invalidInvocation_exits (interp : List Payload → Except ErrorMsg Json)
    (extract : String → Promise Payload) (argv : List String)
    (h : argv.length < 4) :
    extractGPS interp extract argv = .exited 1 usageMessage := by
  simp [extractGPS, h]

theorem invalidInvocation_exits_witness :
    (["node", "extractGPS.js", "out.geojson"] : List String).length < 4
    ∧ extractGPS interpW extractW ["node", "extractGPS.js", "out.geojson"] =
        .exited 1 usageMessage :=
  ⟨by decide,
   invalidInvocation_exits interpW extractW ["node", "extractGPS.js", "out.geojson"]
     (by decide)⟩

theorem batchRun_interpCalls_of_ok (interp : List Payload → Except ErrorMsg Json)
    (out : String) (ps : List (Promise Payload))
    (hok : ∀ p ∈ ps, ∃ a, p.result = Except.ok a) :
    (batchRun interp out ps).interpCalls =
      [{ payloads := okValues ps, preset := "geojson" }] := by
  have hall := promiseAll_of_ok ps hok
  cases hi : interp (okValues ps) with
  | error e => simp [batchRun, hall, hi]
  | ok telemetry => simp [batchRun, hall, hi]

/-- **C10.** For every valid invocation, the loop over `files` creates
exactly one extraction promise per input file path (the promise list is the
map of `gpmfExtract` over `argv.slice(3)`, so it has one entry per file, in
command-line order), and when all promises fulfil, the payload array handed
to `goproTelemetry` is exactly the per-file extracted values in command-line
order — same length as the input file list, order preserved. -/
theorem onePromisePerFile (interp : List Payload → Except ErrorMsg Json)
    (extract : String → Promise Payload) (val : String → Payload)
    (argv : List String) (h4 : ¬ argv.length < 4)
    (hok : ∀ f ∈ argv.drop 3, (extract f).result = Except.ok (val f)) :
    ((argv.drop 3).map extract).length = (argv.drop 3).length
    ∧ extractGPS interp extract argv =
        .ran (batchRun interp (argv.getD 2 "") ((argv.drop 3).map extract))
    ∧ (batchRun interp (argv.getD 2 "")
          ((argv.drop 3).map extract)).interpCalls.map InterpCall.payloads =
        [(argv.drop 3).map val] := by
  refine ⟨List.length_map _ _, by simp [extractGPS, h4], ?_⟩
  rw [batchRun_interpCalls_of_ok interp (argv.getD 2 "") ((argv.drop 3).map extract)
    (by intro p hp
        obtain ⟨f, hf, rfl⟩ := List.mem_map.mp hp
        exact ⟨val f, hok f hf⟩)]
  rw [okValues_map _ extract val hok]
  rfl

theorem onePromisePerFile_witness :
    (¬ argvW.length < 4)
    ∧ (batchRun interpW (argvW.getD 2 "")
          ((argvW.drop 3).map extractW)).interpCalls.map InterpCall.payloads =
        [(argvW.drop 3).map fun _ => (0 : Payload)] :=
  ⟨by decide,
   (onePromisePerFile interpW extractW (fun _ => 0) argvW (by decide)
     (fun _ _ => rfl)).2.2⟩

/-- **C5.** The output write happens only after every input file's
extraction has settled: any write in the batch trace is stamped with
`Promise.all`'s fulfilment time, which is the maximum of all the promises'
settle times — so every extraction settled no later than the write, and the
orchestrator awaited the full set rather than a first-completion race. -/
theorem writeAfterAllSettled (interp : List Payload → Except ErrorMsg Json)
    (out : String) (ps : List (Promise Payload)) (t : Nat)
    (path content : String)
    (hw : (t, path, content) ∈ (batchRun interp out ps).writes) :
    (∀ p ∈ ps, p.time ≤ t) ∧ t = maxSettleTime ps := by
  cases her : earliestRejection ps with
  | some te =>
    cases te with
    | mk t0 e0 =>
      have hempty : (batchRun interp out ps).writes = [] := by
        simp [batchRun, promiseAll, her]
      rw [hempty] at hw
      simp at hw
  | none =>
    have hres : promiseAll ps =
        { time := maxSettleTime ps, result := .ok (okValues ps) } := by
      simp [promiseAll, her]
    cases hi : interp (okValues ps) with
    | error e =>
      have hempty : (batchRun interp out ps).writes = [] := by
        simp [batchRun, hres, hi]
      rw [hempty] at hw
      simp at hw
    | ok telemetry =>
      have hone : (batchRun interp out ps).writes =
          [(maxSettleTime ps, out, jsonStringify telemetry 2)] := by
        simp [batchRun, hres, hi]
      rw [hone] at hw
      simp at hw
      obtain ⟨ht, _, _⟩ := hw
      subst ht
      exact ⟨maxSettleTime_le ps, rfl⟩

theorem writeAfterAllSettled_witness :
    ((5, "out.geojson", "null") ∈ (batchRun interpW "out.geojson"
        [Promise.mk 3 (Except.ok 1), Promise.mk 5 (Except.ok 2)]).writes)
    ∧ (5 : Nat) = maxSettleTime
        [Promise.mk 3 (Except.ok (1 : Payload)), Promise.mk 5 (Except.ok 2)] :=
  ⟨by decide,
   (writeAfterAllSettled interpW "out.geojson"
     [Promise.mk 3 (Except.ok 1), Promise.mk 5 (Except.ok 2)]
     5 "out.geojson" "null" (by decide)).2⟩

/-- **C9.** On success, the collection of per-file telemetry payloads is
passed to the external telemetry interpreter with the named output preset
`"geojson"`, and the resulting track is written to the output file serialized
by `JSON.stringify(telemetry, null, 2)` — indented, human-readable JSON: for
a nonempty object the serialization is multi-line, opening with the brace
followed by a newline. -/
theorem geojsonPreset_prettyOutput (interp : List Payload → Except ErrorMsg Json)
    (out : String) (ps : List (Promise Payload)) (telemetry : Json)
    (hok : ∀ p ∈ ps, ∃ a, p.result = Except.ok a)
    (hi : interp (okValues ps) = Except.ok telemetry) :
    (batchRun interp out ps).interpCalls =
      [{ payloads := okValues ps, preset := "geojson" }]
    ∧ (batchRun interp out ps).writes.map (fun w => (w.2.1, w.2.2)) =
        [(out, jsonStringify telemetry 2)]
    ∧ ∀ k v fs, telemetry = Json.obj (JsonFields.cons k v fs) →
        ∃ s, jsonStringify telemetry 2 = "\x7b\n" ++ s := by
  have hall := promiseAll_of_ok ps hok
  refine ⟨batchRun_interpCalls_of_ok interp out ps hok, ?_, ?_⟩
  · simp [batchRun, hall, hi]
  · intro k v fs hobj
    subst hobj
    exact jsonStringify_obj_multiline k v fs

theorem geojsonPreset_prettyOutput_witness :
    (batchRun (fun _ => .ok (Json.obj (JsonFields.cons "type"
        (Json.str "FeatureCollection") JsonFields.nil))) "out.geojson"
        [Promise.mk 4 (Except.ok 9)]).interpCalls =
      [{ payloads := okValues [Promise.mk 4 (Except.ok (9 : Payload))],
         preset := "geojson" }]
    ∧ (batchRun (fun _ => .ok (Json.obj (JsonFields.cons "type"
          (Json.str "FeatureCollection") JsonFields.nil))) "out.geojson"
          [Promise.mk 4 (Except.ok 9)]).writes.map (fun w => (w.2.1, w.2.2)) =
        [("out.geojson", jsonStringify (Json.obj (JsonFields.cons "type"
            (Json.str "FeatureCollection") JsonFields.nil)) 2)] :=
  ⟨(geojsonPreset_prettyOutput _ "out.geojson" [Promise.mk 4 (Except.ok 9)]
      (Json.obj (JsonFields.cons "type" (Json.str "FeatureCollection")
        JsonFields.nil))
      (by intro p hp
          rw [List.mem_singleton] at hp
          subst hp
          exact ⟨9, rfl⟩)
      rfl).1,
   (geojsonPreset_prettyOutput _ "out.geojson" [Promise.mk 4 (Except.ok 9)]
      (Json.obj (JsonFields.cons "type" (Json.str "FeatureCollection")
        JsonFields.nil))
      (by intro p hp
          rw [List.mem_singleton] at hp
          subst hp
          exact ⟨9, rfl⟩)
      rfl).2.1⟩

/-- **C3.** One output artifact per logical recording: the collaborator
invokes the script once per logical recording with the output path
`outPathFor rid` derived from the recording identifier (see `outPathFor`,
modelled from the spec). When every chunk's extraction and the interpretation
succeed, the script writes exactly one file, at exactly that deterministic
path; for a recording with any failed chunk extraction, no file is
written. -/
theorem oneArtifactPerRecording (interp : List Payload → Except ErrorMsg Json)
    (rid : String) (ps psFail : List (Promise Payload)) (telemetry : Json)
    (hok : ∀ p ∈ ps, ∃ a, p.result = Except.ok a)
    (hi : interp (okValues ps) = Except.ok telemetry)
    (hfail : ∃ p ∈ psFail, ∃ e, p.result = Except.error e) :
    (batchRun interp (outPathFor rid) ps).writes.map (fun w => w.2.1) =
      [outPathFor rid]
    ∧ (batchRun interp (outPathFor rid) psFail).writes = [] := by
  constructor
  · have hall := promiseAll_of_ok ps hok
    simp [batchRun, hall, hi]
  · obtain ⟨t, e, hpe⟩ := promiseAll_error_of_rejection psFail hfail
    simp [batchRun, hpe]

theorem oneArtifactPerRecording_witness :
    (batchRun interpW (outPathFor "GX010001") [Promise.mk 0 (Except.ok 1)]).writes.map
        (fun w => w.2.1) = [outPathFor "GX010001"]
    ∧ (batchRun interpW (outPathFor "GX010001")
        [Promise.mk 0 (Except.error "IOError: unreadable")]).writes = [] :=
  oneArtifactPerRecording interpW "GX010001" [Promise.mk 0 (Except.ok 1)]
    [Promise.mk 0 (Except.error "IOError: unreadable")] Json.null
    (by intro p hp
        rw [List.mem_singleton] at hp
        subst hp
        exact ⟨1, rfl⟩)
    rfl
    ⟨Promise.mk 0 (Except.error "IOError: unreadable"),
     List.mem_singleton.mpr rfl, "IOError: unreadable", rfl⟩

/-- **C1 (counterexample).** The claim fails on the code: in a two-file run
where the first file's extraction promise rejects and the second fulfils,
the driver makes no interpreter call and writes nothing at all — while the
same succeeding file alone would have produced one write. No per-file
`Failed` record exists anywhere in the driver (the trace has no such
component), and the one failure does prevent the sibling file's track and
aborts the batch's output. -/
theorem failureIsolation_counterexample :
    (batchRun interpW "out.geojson"
        [Promise.mk 0 (Except.error "IOError: unreadable"),
         Promise.mk 1 (Except.ok 7)]).writes = []
    ∧ (batchRun interpW "out.geojson"
        [Promise.mk 0 (Except.error "IOError: unreadable"),
         Promise.mk 1 (Except.ok 7)]).interpCalls = []
    ∧ (batchRun interpW "out.geojson" [Promise.mk 1 (Except.ok 7)]).writes ≠ [] := by
  refine ⟨rfl, rfl, ?_⟩
  decide

/-- **C1 (amended).** When any file's extraction promise rejects,
`Promise.all(promises)` rejects, so its `.then` callback never runs; the
rejection is asynchronous and therefore not caught by the surrounding
`try/catch` (which only observes synchronous throws while the promises are
being created), no `Failed` record is produced for any file, and neither the
interpreter call nor the output write happens: one bad file aborts the
batch's entire output. -/
theorem failureAbortsBatch (interp : List Payload → Except ErrorMsg Json)
    (out : String) (ps : List (Promise Payload))
    (hfail : ∃ p ∈ ps, ∃ e, p.result = Except.error e) :
    batchRun interp out ps = { interpCalls := [], writes := [] } := by
  obtain ⟨t, e, hpe⟩ := promiseAll_error_of_rejection ps hfail
  simp [batchRun, hpe]

theorem failureAbortsBatch_witness :
    batchRun interpW "track.geojson"
      [Promise.mk 2 (Except.error "DecodeError: bad container"),
       Promise.mk 0 (Except.ok 3)] =
      { interpCalls := [], writes := [] } :=
  failureAbortsBatch interpW "track.geojson"
    [Promise.mk 2 (Except.error "DecodeError: bad container"),
     Promise.mk 0 (Except.ok 3)]
    ⟨Promise.mk 2 (Except.error "DecodeError: bad container"),
     List.mem_cons_self _ _, "DecodeError: bad container", rfl⟩
